import Mathlib

/-!
Shallow embedding of `datasets/biaobei48000.py` from the tacotron repository.

The script has three functions:

* `parse_trn` reads a transcription file as alternating id/pronunciation line
  pairs and returns the parsed pairs;
* `_process_utterance` loads one waveform, rescales it, trims silence,
  computes a linear and a mel spectrogram, skips the utterance (returns the
  `None` sentinel) when the linear spectrogram has more frames than
  `hparams.max_frame_num`, and otherwise writes the two feature files and
  returns a training-record tuple;
* `build_from_path` parses the transcription file, submits one
  `_process_utterance` task per parsed utterance with sequential indices
  starting at 1, collects the results in submission order and filters out
  the `None` sentinels.

Modelling choices:

* Python strings are lists of characters (`PyStr`); file contents are lists
  of lines, with the trailing newline removed (Python `readline` at end of
  file returns the empty string, which is the empty list here).
* Waveform samples are rationals; numpy arrays of samples are lists.
* The audio library (`audio.load_wav`, `audio.trim_silence`,
  `audio.spectrogram`, `audio.melspectrogram`) is an external collaborator,
  modelled as an explicit record of functions `AudioEnv`; spectrograms are
  modelled by their shape only, which is all the script inspects.
* Fallible steps are modelled with `Except`: a failing `audio.load_wav`
  raises, `np.abs(wav).max()` raises on an empty array, and the unguarded
  rescale division has no defined result when the maximum absolute
  amplitude is zero, so these paths are error outcomes, distinct from the
  skip sentinel.
* `np.save` calls are recorded in a write log of output paths.
-/

/-- A Python string, modelled as a list of characters. -/
abbrev PyStr := List Char

/-- Python `str.strip()`: remove leading and trailing whitespace. -/
def pyStrip (s : PyStr) : PyStr :=
  ((s.dropWhile Char.isWhitespace).reverse.dropWhile Char.isWhitespace).reverse

/-- Python `line.split('\t')[0] `: the prefix of the string before the first
tab character, or the whole string when it contains no tab. -/
def beforeFirstTab (s : PyStr) : PyStr :=
  s.takeWhile (fun c => c ≠ '\t')

/-- The loop of `parse_trn`.  `line` is the most recently read line, already
stripped; `rest` is the list of lines not yet read.  While `line` is
non-empty: take the part before the first tab as the identifier, read the
following line (empty at end of file) and strip it as the pronunciation,
read the next line, append the pair, repeat. -/
def parseGo : PyStr → List PyStr → List (PyStr × PyStr)
  | line, rest =>
    if line = [] then []
    else
      match rest with
      | [] => [(beforeFirstTab line, [])]
      | [p] => [(beforeFirstTab line, pyStrip p)]
      | p :: l2 :: rest2 =>
          (beforeFirstTab line, pyStrip p) :: parseGo (pyStrip l2) rest2

/-- The function `parse_trn`: parse the transcription file, given as its list of lines.
Reads the first line, strips it, and enters the loop. -/
def parse_trn (lines : List PyStr) : List (PyStr × PyStr) :=
  match lines with
  | [] => []
  | l :: rest => parseGo (pyStrip l) rest

/-- A waveform: a one-dimensional numpy array of samples. -/
abbrev Waveform := List ℚ

/-- The quantity `np.abs(wav).max()` for a non-empty waveform, extended with value 0 on
the empty list (the empty case raises in numpy and is modelled as an error
outcome in `_process_utterance`, so the extension is never relied upon). -/
def maxAbs (w : Waveform) : ℚ :=
  (w.map (fun x => |x|)).foldr max 0

/-- The rescale step `wav = wav / np.abs(wav).max() * 0.999`. -/
def rescale (w : Waveform) : Waveform :=
  w.map (fun x => x / maxAbs w * (999 / 1000))

/-- A numpy 2-D array, modelled by its shape: `shape0` rows (frequency bins)
and `shape1` columns (frames).  The script inspects nothing else. -/
structure Mat where
  shape0 : ℕ
  shape1 : ℕ
deriving DecidableEq

/-- The external audio collaborators consumed by `_process_utterance`:
`audio.load_wav` (which may fail), `audio.trim_silence`,
`audio.spectrogram` and `audio.melspectrogram`. -/
structure AudioEnv where
  load_wav : String → Option Waveform
  trim_silence : Waveform → Waveform
  spectrogram : Waveform → Mat
  melspectrogram : Waveform → Mat

/-- The external configuration consumed via `hparams`. -/
structure Hparams where
  max_frame_num : ℕ

/-- The tuple `(spectrogram_filename, mel_filename, n_frames, text)`
returned by `_process_utterance` for a non-skipped utterance. -/
structure TrainingRecord where
  spectrogram_filename : String
  mel_filename : String
  n_frames : ℕ
  pinyin : String
deriving DecidableEq

/-- The undefined behaviours of one `_process_utterance` unit of work:
`loadFailed` models `audio.load_wav` raising on a missing or unreadable
file; `emptyMax` models `np.abs(wav).max()` raising on an empty array;
`divByZero` marks the unguarded rescale division when the maximum absolute
amplitude is zero, which has no defined result. -/
inductive ProcError where
  | loadFailed : ProcError
  | emptyMax : ProcError
  | divByZero : ProcError
deriving DecidableEq

/-- Base-10 digits, least significant first, with explicit fuel so that the
recursion is structural. -/
def digitsRevAux : ℕ → ℕ → List ℕ
  | _, 0 => []
  | 0, _ + 1 => []
  | f + 1, n + 1 => (n + 1) % 10 :: digitsRevAux f ((n + 1) / 10)

/-- The base-10 digits of `n`, least significant first (empty for 0). -/
def natDigits (n : ℕ) : List ℕ := digitsRevAux n n

/-- The zero-padded decimal formatting `'%05d' % n`: the decimal digits of
`n` (most significant first, empty for 0), left-padded with '0' to at least
five characters. -/
def format05d (n : ℕ) : String :=
  let ds : List Char := (natDigits n).reverse.map (fun d => Char.ofNat (48 + d))
  ⟨List.replicate (5 - ds.length) '0' ++ ds⟩

/-- The filename `'biaobei48000-spec-%05d.npy' % index`. -/
def specFilename (index : ℕ) : String :=
  "biaobei48000-spec-" ++ format05d index ++ ".npy"

/-- The filename `'biaobei48000-mel-%05d.npy' % index`. -/
def melFilename (index : ℕ) : String :=
  "biaobei48000-mel-" ++ format05d index ++ ".npy"

/-- Python `os.path.join` as used here: directory, separator, filename. -/
def joinPath (d f : String) : String := d ++ "/" ++ f

/-- The function `_process_utterance(out_dir, index, wav_path, pinyin)`: load the
waveform, rescale it, trim silence, compute the linear spectrogram, return
the `None` sentinel when its frame count exceeds `max_frame_num`, and
otherwise compute the mel spectrogram, write both feature files and return
the training record.  The result pairs the sentinel-or-record with the
write log of output paths. -/
def _process_utterance (env : AudioEnv) (hp : Hparams) (out_dir : String)
    (index : ℕ) (wav_path : String) (pinyin : String) :
    Except ProcError (Option TrainingRecord × List String) :=
  match env.load_wav wav_path with
  | none => .error .loadFailed
  | some wav =>
    if wav = [] then .error .emptyMax
    else if maxAbs wav = 0 then .error .divByZero
    else
      let wav1 := env.trim_silence (rescale wav)
      let spectrogram := env.spectrogram wav1
      let n_frames := spectrogram.shape1
      if n_frames > hp.max_frame_num then .ok (none, [])
      else
        let spectrogram_filename := specFilename index
        let mel_filename := melFilename index
        .ok (some ⟨spectrogram_filename, mel_filename, n_frames, pinyin⟩,
             [joinPath out_dir spectrogram_filename,
              joinPath out_dir mel_filename])

/-- The submission loop of `build_from_path`: starting from `index = 1`,
pair each parsed utterance in parse order with the next sequential index. -/
def assignIndices : ℕ → List (PyStr × PyStr) → List (ℕ × PyStr × PyStr)
  | _, [] => []
  | i, pr :: tl => (i, pr) :: assignIndices (i + 1) tl

/-- The units of work submitted by `build_from_path`: for each parsed
utterance, its sequential index, the audio path
`os.path.join(in_dir, 'Wave', idx + '.wav')`, and the pronunciation. -/
def submittedTasks (in_dir : String) (trnLines : List PyStr) :
    List (ℕ × String × String) :=
  (assignIndices 1 (parse_trn trnLines)).map
    (fun t => (t.1, in_dir ++ "/Wave/" ++ String.mk t.2.1 ++ ".wav", String.mk t.2.2))

/-- One submitted future's `result()`: run `_process_utterance` on a unit of
work, keeping only the sentinel-or-record (the write log is filesystem
state, not part of the returned value). -/
def runTask (env : AudioEnv) (hp : Hparams) (out_dir : String)
    (t : ℕ × String × String) : Except ProcError (Option TrainingRecord) :=
  (_process_utterance env hp out_dir t.1 t.2.1 t.2.2).map Prod.fst

/-- The collection loop
`[future.result() for future in tqdm(futures) if future.result() is not None]`:
take the results in submission order, re-raise the first exception if any,
and drop the `None` sentinels. -/
def collectResults :
    List (Except ProcError (Option TrainingRecord)) →
    Except ProcError (List TrainingRecord)
  | [] => .ok []
  | .error e :: _ => .error e
  | .ok o :: rs =>
    match collectResults rs with
    | .error e => .error e
    | .ok l => .ok (match o with | none => l | some v => v :: l)

/-- The function `build_from_path(in_dir, out_dir, ...)`: parse the transcription file
(given as its list of lines), submit one unit of work per utterance with
sequential indices, collect the results in submission order and filter out
the skip sentinels.  `tqdm` is the identity wrapper, its default. -/
def build_from_path (env : AudioEnv) (hp : Hparams)
    (in_dir out_dir : String) (trnLines : List PyStr) :
    Except ProcError (List TrainingRecord) :=
  collectResults ((submittedTasks in_dir trnLines).map (runTask env hp out_dir))

deriving instance DecidableEq for Except

/-- An id line of a well-formed pair: already stripped and non-empty. -/
abbrev wfPair (pr : PyStr × PyStr) : Prop := pyStrip pr.1 = pr.1 ∧ pr.1 ≠ []

/-- The lines of a transcription file made of id/pronunciation pairs. -/
def pairsToLines : List (PyStr × PyStr) → List PyStr
  | [] => []
  | pr :: tl => pr.1 :: pr.2 :: pairsToLines tl

/-- The numeric value of a decimal digit character. -/
def charVal (c : Char) : ℕ := c.toNat - 48

/-- The number denoted by a list of decimal digit characters, most
significant first. -/
def strVal (l : List Char) : ℕ :=
  l.foldl (fun a c => 10 * a + charVal c) 0

/-! ### Parser lemmas -/

/-- Characters of the stripped string are characters of the string. -/
theorem mem_of_mem_pyStrip {c : Char} {l : PyStr} (h : c ∈ pyStrip l) : c ∈ l := by
  unfold pyStrip at h
  rw [List.mem_reverse] at h
  have h1 := (List.dropWhile_sublist (l := (l.dropWhile Char.isWhitespace).reverse)
    (p := Char.isWhitespace)).subset h
  rw [List.mem_reverse] at h1
  exact (List.dropWhile_sublist (l := l) (p := Char.isWhitespace)).subset h1

/-- If a string contains no tab, the part before the first tab is the whole
string. -/
theorem beforeFirstTab_eq_self {s : PyStr} (h : ∀ c ∈ s, c ≠ '\t') :
    beforeFirstTab s = s := by
  unfold beforeFirstTab
  rw [List.takeWhile_eq_self_iff]
  intro x hx
  simpa using h x hx

/-- Running `parse_trn` on well-formed pairs followed by arbitrary extra
lines parses each pair in order and continues on the extra lines. -/
theorem parse_trn_append (prs : List (PyStr × PyStr)) (extra : List PyStr)
    (h : ∀ pr ∈ prs, wfPair pr) :
    parse_trn (pairsToLines prs ++ extra) =
      prs.map (fun pr => (beforeFirstTab pr.1, pyStrip pr.2)) ++ parse_trn extra := by
  induction prs with
  | nil => simp [pairsToLines]
  | cons pr tl ih =>
    obtain ⟨hstrip, hne⟩ := h pr (List.mem_cons_self pr tl)
    have htl : ∀ q ∈ tl, wfPair q := fun q hq => h q (List.mem_cons_of_mem pr hq)
    show parse_trn (pr.1 :: pr.2 :: (pairsToLines tl ++ extra)) = _
    cases hrest : pairsToLines tl ++ extra with
    | nil =>
      obtain ⟨hl, he⟩ := List.append_eq_nil.mp hrest
      have htln : tl = [] := by
        cases tl with
        | nil => rfl
        | cons a b => simp [pairsToLines] at hl
      subst htln he
      simp [parse_trn, parseGo, hstrip, hne]
    | cons l2 rest3 =>
      have key : parse_trn (pr.1 :: pr.2 :: l2 :: rest3) =
          (beforeFirstTab pr.1, pyStrip pr.2) :: parse_trn (l2 :: rest3) := by
        show parseGo (pyStrip pr.1) (pr.2 :: l2 :: rest3) = _
        rw [hstrip, parseGo, if_neg hne]
        rfl
      rw [key, ← hrest, ih htl]
      simp

/-- Claim C2: for a well-formed transcription file of N id/pronunciation
line pairs (each id line non-empty, containing a tab, and carrying no
surrounding whitespace), `parse_trn` returns exactly N entries in file
order, each pairing the part of the id line before its first tab with the
following line stripped of surrounding whitespace. -/
theorem parse_trn_wellformed (prs : List (PyStr × PyStr))
    (h : ∀ pr ∈ prs, wfPair pr ∧ '\t' ∈ pr.1) :
    (parse_trn (pairsToLines prs)).length = prs.length ∧
    parse_trn (pairsToLines prs) =
      prs.map (fun pr => (beforeFirstTab pr.1, pyStrip pr.2)) := by
  have happ := parse_trn_append prs [] (fun pr hpr => (h pr hpr).1)
  rw [List.append_nil] at happ
  have hnil : parse_trn [] = [] := rfl
  rw [hnil, List.append_nil] at happ
  exact ⟨by rw [happ]; simp, happ⟩

/-- Concrete instance of claim C2's theorem on a two-pair file. -/
theorem parse_trn_wellformed_witness :
    parse_trn (pairsToLines
        [(String.toList "000001\tAB", String.toList " ka2 er2 "),
         (String.toList "000002\tCD", String.toList "po4")]) =
      [(String.toList "000001", String.toList "ka2 er2"),
       (String.toList "000002", String.toList "po4")] := by
  have := (parse_trn_wellformed
    [(String.toList "000001\tAB", String.toList " ka2 er2 "),
     (String.toList "000002\tCD", String.toList "po4")] (by decide)).2
  rw [this]
  decide

/-- Claim C9: an id line without a tab does not fail: the split yields the
whole line, so the entire stripped line becomes the identifier and parsing
continues with the next line as the pronunciation. -/
theorem parse_trn_no_tab (L P : PyStr) (rest : List PyStr)
    (hne : pyStrip L ≠ []) (hnt : '\t' ∉ L) :
    parse_trn (L :: P :: rest) = (pyStrip L, pyStrip P) :: parse_trn rest := by
  have hbt : beforeFirstTab (pyStrip L) = pyStrip L :=
    beforeFirstTab_eq_self (fun c hc hceq =>
      hnt (hceq ▸ mem_of_mem_pyStrip hc))
  show parseGo (pyStrip L) (P :: rest) = _
  cases rest with
  | nil =>
    rw [parseGo]
    simp [hne, hbt, parse_trn]
  | cons r rs =>
    rw [parseGo]
    simp only [hne, if_neg hne, hbt]
    rfl

/-- Concrete instance of claim C9's theorem: id line `ab` with no tab. -/
theorem parse_trn_no_tab_witness :
    parse_trn [String.toList "ab", String.toList " x y "] =
      [(String.toList "ab", String.toList "x y")] := by
  have := parse_trn_no_tab (String.toList "ab") (String.toList " x y ") []
    (by decide) (by decide)
  rw [this]
  decide

/-- Claim C10: a file ending right after a non-blank id line (odd number of
lines) parses without failure: the pronunciation read at end of file is the
empty string, so the final entry pairs that line's identifier with the
empty pronunciation, and parsing terminates. -/
theorem parse_trn_odd_lines (prs : List (PyStr × PyStr)) (L : PyStr)
    (h : ∀ pr ∈ prs, wfPair pr) (hL : pyStrip L ≠ []) :
    parse_trn (pairsToLines prs ++ [L]) =
      prs.map (fun pr => (beforeFirstTab pr.1, pyStrip pr.2)) ++
        [(beforeFirstTab (pyStrip L), [])] := by
  rw [parse_trn_append prs [L] h]
  show _ = _ ++ _
  congr 1
  show parseGo (pyStrip L) [] = _
  rw [parseGo]
  simp [hL]

/-- Concrete instance of claim C10's theorem: one pair then a dangling id
line. -/
theorem parse_trn_odd_lines_witness :
    parse_trn (pairsToLines [(String.toList "000001\tAB", String.toList "ka2")] ++
        [String.toList "000002\tCD"]) =
      [(String.toList "000001", String.toList "ka2"),
       (String.toList "000002", [])] := by
  have := parse_trn_odd_lines [(String.toList "000001\tAB", String.toList "ka2")]
    (String.toList "000002\tCD") (by decide) (by decide)
  rw [this]
  decide

/-! ### Rescaling lemmas -/

/-- The maximum `maxAbs` is non-negative. -/
theorem maxAbs_nonneg (w : Waveform) : 0 ≤ maxAbs w := by
  induction w with
  | nil => simp [maxAbs]
  | cons a tl ih =>
    unfold maxAbs at ih ⊢
    simp only [List.map_cons, List.foldr_cons]
    exact le_trans ih (le_max_right _ _)

/-- Every sample is bounded in absolute value by `maxAbs`. -/
theorem abs_le_maxAbs {x : ℚ} {w : Waveform} (hx : x ∈ w) : |x| ≤ maxAbs w := by
  induction w with
  | nil => cases hx
  | cons a tl ih =>
    unfold maxAbs at ih ⊢
    simp only [List.map_cons, List.foldr_cons]
    rcases List.mem_cons.mp hx with h | h
    · subst h; exact le_max_left _ _
    · exact le_trans (ih h) (le_max_right _ _)

/-- The maximum `maxAbs` is at most any bound dominating every sample's absolute value. -/
theorem maxAbs_le {w : Waveform} {b : ℚ} (hb : 0 ≤ b)
    (h : ∀ x ∈ w, |x| ≤ b) : maxAbs w ≤ b := by
  induction w with
  | nil => simpa [maxAbs] using hb
  | cons a tl ih =>
    unfold maxAbs at ih ⊢
    simp only [List.map_cons, List.foldr_cons, max_le_iff]
    exact ⟨h a (List.mem_cons_self a tl),
      ih (fun x hx => h x (List.mem_cons_of_mem a hx))⟩

/-- Claim C6: for a non-silent waveform (strictly positive maximum absolute
sample value), the rescaled waveform `wav / np.abs(wav).max() * 0.999` has
maximum absolute sample value at most 0.999 and the same length as the
input. -/
theorem rescale_bound (w : Waveform) (h : 0 < maxAbs w) :
    maxAbs (rescale w) ≤ 999 / 1000 ∧ (rescale w).length = w.length := by
  constructor
  · apply maxAbs_le (by norm_num)
    intro x hx
    unfold rescale at hx
    rcases List.mem_map.mp hx with ⟨y, hy, rfl⟩
    have hyb : |y| ≤ maxAbs w := abs_le_maxAbs hy
    have habs : |y / maxAbs w * (999 / 1000)| = |y| / maxAbs w * (999 / 1000) := by
      rw [abs_mul, abs_div, abs_of_pos h]
      norm_num
    rw [habs]
    have hdiv : |y| / maxAbs w ≤ 1 := (div_le_one h).mpr hyb
    calc |y| / maxAbs w * (999 / 1000) ≤ 1 * (999 / 1000) := by
          exact mul_le_mul_of_nonneg_right hdiv (by norm_num)
      _ = 999 / 1000 := one_mul _
  · unfold rescale
    exact List.length_map _ _

/-- Concrete instance of claim C6's theorem on the waveform `[-3, 2]`. -/
theorem rescale_bound_witness :
    (0 : ℚ) < maxAbs [-3, 2] ∧
      maxAbs (rescale [-3, 2]) ≤ 999 / 1000 ∧
      (rescale [-3, 2]).length = [(-3 : ℚ), 2].length :=
  ⟨by norm_num [maxAbs], rescale_bound [-3, 2] (by norm_num [maxAbs])⟩

/-- Claim C7: on an all-silent waveform (maximum absolute amplitude 0) the
rescale division of `_process_utterance` divides by zero; the division is
unguarded, so the outcome is the undefined division-by-zero behaviour, not
the skip sentinel and not a training record, and no file is written. -/
theorem process_utterance_div_by_zero (env : AudioEnv) (hp : Hparams)
    (out_dir : String) (index : ℕ) (wav_path pinyin : String) (wav : Waveform)
    (hload : env.load_wav wav_path = some wav) (hne : wav ≠ [])
    (hsilent : maxAbs wav = 0) :
    _process_utterance env hp out_dir index wav_path pinyin =
      .error .divByZero := by
  unfold _process_utterance
  rw [hload]
  simp [hne, hsilent]

/-- Concrete instance of claim C7's theorem on the silent waveform `[0]`. -/
theorem process_utterance_div_by_zero_witness :
    _process_utterance ⟨fun _ => some [0], fun w => w,
        fun w => ⟨5, w.length⟩, fun w => ⟨4, w.length⟩⟩ ⟨1000⟩
      "out" 1 "w1" "py" = .error .divByZero :=
  process_utterance_div_by_zero _ _ _ _ _ _ [0] rfl (by decide)
    (by norm_num [maxAbs])

/-- Claim C1: with the waveform loaded and non-degenerate, when the linear
spectrogram's frame count exceeds `max_frame_num` the processor returns the
`None` sentinel and writes no file; when it does not, both feature files
are written and the training record is returned. -/
theorem process_utterance_skip_law (env : AudioEnv) (hp : Hparams)
    (out_dir : String) (index : ℕ) (wav_path pinyin : String) (wav : Waveform)
    (n : ℕ) (hload : env.load_wav wav_path = some wav) (hne : wav ≠ [])
    (hpos : maxAbs wav ≠ 0)
    (hn : n = (env.spectrogram (env.trim_silence (rescale wav))).shape1) :
    (hp.max_frame_num < n →
      _process_utterance env hp out_dir index wav_path pinyin = .ok (none, [])) ∧
    (n ≤ hp.max_frame_num →
      _process_utterance env hp out_dir index wav_path pinyin =
        .ok (some ⟨specFilename index, melFilename index, n, pinyin⟩,
             [joinPath out_dir (specFilename index),
              joinPath out_dir (melFilename index)])) := by
  subst hn
  unfold _process_utterance
  rw [hload]
  constructor
  · intro hgt
    simp [hne, hpos, hgt]
  · intro hle
    simp [hne, hpos, Nat.not_lt.mpr hle]

/-- Concrete instance of claim C1's theorem: frame count 2 within the
configured maximum 2, so both feature files are written and the record is
returned. -/
theorem process_utterance_skip_law_witness :
    _process_utterance ⟨fun _ => some [1, -2], fun w => w,
        fun w => ⟨5, w.length⟩, fun w => ⟨4, w.length⟩⟩ ⟨2⟩
      "out" 3 "w1" "py" =
      .ok (some ⟨specFilename 3, melFilename 3, 2, "py"⟩,
           [joinPath "out" (specFilename 3), joinPath "out" (melFilename 3)]) :=
  (process_utterance_skip_law _ ⟨2⟩ "out" 3 "w1" "py" [1, -2] 2 rfl
    (by decide) (by decide) (by decide)).2 (by decide)

/-! ### Filename lemmas -/

/-- Decoding a digit character recovers the digit. -/
theorem charVal_digit : ∀ d < 10, charVal (Char.ofNat (48 + d)) = d := by
  decide

/-- With enough fuel, the fuelled digit computation agrees with
`Nat.digits 10`. -/
theorem digitsRevAux_eq_digits (f : ℕ) :
    ∀ n, n ≤ f → digitsRevAux f n = Nat.digits 10 n := by
  induction f with
  | zero =>
    intro n hn
    interval_cases n
    simp [digitsRevAux, Nat.digits_zero]
  | succ f ih =>
    intro n hn
    cases n with
    | zero => simp [digitsRevAux, Nat.digits_zero]
    | succ m =>
      show (m + 1) % 10 :: digitsRevAux f ((m + 1) / 10) = _
      rw [ih ((m + 1) / 10) ?hle]
      · rw [Nat.digits_def' (by norm_num) (Nat.succ_pos m)]
      case hle =>
        have hlt : (m + 1) / 10 < m + 1 := Nat.div_lt_self (Nat.succ_pos m) (by norm_num)
        omega

/-- The digits `natDigits` agree with `Nat.digits 10`. -/
theorem natDigits_eq_digits (n : ℕ) : natDigits n = Nat.digits 10 n :=
  digitsRevAux_eq_digits n n le_rfl

/-- Horner evaluation of the reversed digit characters of a digit list. -/
theorem foldl_digit_chars (ds : List ℕ) (h : ∀ d ∈ ds, d < 10) (a : ℕ) :
    List.foldl (fun x c => 10 * x + charVal c) a
        (ds.reverse.map (fun d => Char.ofNat (48 + d)))
      = a * 10 ^ ds.length + Nat.ofDigits 10 ds := by
  induction ds generalizing a with
  | nil => simp [Nat.ofDigits]
  | cons d tl ih =>
    have hd : d < 10 := h d (List.mem_cons_self d tl)
    have htl : ∀ x ∈ tl, x < 10 := fun x hx => h x (List.mem_cons_of_mem d hx)
    simp only [List.reverse_cons, List.map_append, List.map_cons, List.map_nil,
      List.foldl_append, List.foldl_cons, List.foldl_nil]
    rw [ih htl a, charVal_digit d hd, Nat.ofDigits_cons]
    simp only [List.length_cons]
    ring

/-- Leading zero characters do not change the decoded value. -/
theorem strVal_replicate_zero (k : ℕ) (l : List Char) :
    strVal (List.replicate k '0' ++ l) = strVal l := by
  induction k with
  | zero => rfl
  | succ n ih =>
    show strVal ('0' :: (List.replicate n '0' ++ l)) = strVal l
    unfold strVal at ih ⊢
    simpa [charVal] using ih

/-- Decoding the characters of `'%05d' % n` recovers `n`: the padding is a
left inverse of formatting. -/
theorem strVal_format05d (n : ℕ) : strVal (format05d n).data = n := by
  show strVal (List.replicate _ '0' ++ _) = n
  rw [strVal_replicate_zero]
  unfold strVal
  rw [natDigits_eq_digits n]
  rw [foldl_digit_chars (Nat.digits 10 n)
    (fun d hd => Nat.digits_lt_base (by norm_num) hd) 0]
  simp [Nat.ofDigits_digits]

/-- The `'%05d'` formatting is injective. -/
theorem format05d_injective {i j : ℕ} (h : format05d i = format05d j) :
    i = j := by
  have hdata : (format05d i).data = (format05d j).data := by rw [h]
  have := congrArg strVal hdata
  rwa [strVal_format05d, strVal_format05d] at this

/-- Equal filenames have equal embedded formatted indices. -/
theorem format05d_eq_of_affix {pre suf : String} {i j : ℕ}
    (h : pre ++ format05d i ++ suf = pre ++ format05d j ++ suf) : i = j := by
  have hdata := congrArg String.data h
  rw [String.data_append, String.data_append, String.data_append,
    String.data_append] at hdata
  rw [List.append_assoc, List.append_assoc] at hdata
  have h1 := List.append_cancel_left hdata
  have h2 := List.append_cancel_right h1
  exact format05d_injective (by
    have : (format05d i).data = (format05d j).data := h2
    cases hfi : format05d i with
    | mk di =>
      cases hfj : format05d j with
      | mk dj =>
        rw [hfi, hfj] at this
        simpa [hfi, hfj] using congrArg String.mk this)

/-- A spec filename never equals a mel filename: they differ at character
position 13, `'s'` against `'m'`. -/
theorem specFilename_ne_melFilename (i j : ℕ) :
    specFilename i ≠ melFilename j := by
  intro h
  have hdata := congrArg String.data h
  unfold specFilename melFilename at hdata
  rw [String.data_append, String.data_append, String.data_append,
    String.data_append] at hdata
  have h13 := congrArg (fun l => l[13]?) hdata
  simp only [List.append_assoc] at h13
  rw [List.getElem?_append_left (by decide),
    List.getElem?_append_left (by decide)] at h13
  have hs : ("biaobei48000-spec-".data)[13]? = some 's' := by decide
  have hm : ("biaobei48000-mel-".data)[13]? = some 'm' := by decide
  rw [hs, hm] at h13
  simp at h13

/-- Claim C5: the output filenames of `_process_utterance` are exactly the
fixed templates around the 5-digit zero-padded index, and distinct indices
never produce colliding filenames, neither within one template nor across
the two. -/
theorem filename_format_and_distinct (i j : ℕ) (hij : i ≠ j) :
    specFilename i = "biaobei48000-spec-" ++ format05d i ++ ".npy" ∧
    melFilename i = "biaobei48000-mel-" ++ format05d i ++ ".npy" ∧
    specFilename i ≠ specFilename j ∧
    melFilename i ≠ melFilename j ∧
    specFilename i ≠ melFilename j := by
  refine ⟨rfl, rfl, ?_, ?_, specFilename_ne_melFilename i j⟩
  · intro h
    exact hij (format05d_eq_of_affix h)
  · intro h
    exact hij (format05d_eq_of_affix h)

/-- Concrete instance of claim C5's theorem at indices 1 and 2. -/
theorem filename_format_and_distinct_witness :
    specFilename 1 = "biaobei48000-spec-" ++ format05d 1 ++ ".npy" ∧
    specFilename 1 ≠ specFilename 2 ∧
    melFilename 1 ≠ melFilename 2 ∧
    specFilename 1 ≠ melFilename 2 :=
  ⟨(filename_format_and_distinct 1 2 (by decide)).1,
   (filename_format_and_distinct 1 2 (by decide)).2.2.1,
   (filename_format_and_distinct 1 2 (by decide)).2.2.2.1,
   (filename_format_and_distinct 1 2 (by decide)).2.2.2.2⟩

/-! ### Dispatch lemmas -/

/-- The indices assigned by the submission loop starting at `i` are the
consecutive integers `i, i+1, ...`, one per utterance. -/
theorem assignIndices_map_fst (i : ℕ) (l : List (PyStr × PyStr)) :
    (assignIndices i l).map Prod.fst = List.range' i l.length := by
  induction l generalizing i with
  | nil => rfl
  | cons pr tl ih =>
    show (i, pr).1 :: (assignIndices (i + 1) tl).map Prod.fst = _
    rw [ih (i + 1)]
    rfl

/-- Claim C4: `build_from_path` pairs the k-th parsed utterance (1-based)
with index k: the submitted indices are exactly `1, 2, ..., N` in parse
order, assigned before any processing, hence monotonically increasing and
never reused or re-assigned regardless of which utterances are later
skipped. -/
theorem build_from_path_sequential_indices (in_dir : String)
    (trnLines : List PyStr) :
    (submittedTasks in_dir trnLines).map Prod.fst =
      List.range' 1 (parse_trn trnLines).length := by
  unfold submittedTasks
  rw [List.map_map]
  exact assignIndices_map_fst 1 (parse_trn trnLines)

/-- If every collected future has a value, the collection loop returns the
values in submission order with the `None` sentinels dropped. -/
theorem collectResults_all_ok
    (rs : List (Except ProcError (Option TrainingRecord)))
    (h : ∀ r ∈ rs, r.isOk = true) :
    collectResults rs = .ok (rs.filterMap (fun r =>
      match r with | .ok (some v) => some v | _ => none)) := by
  induction rs with
  | nil => rfl
  | cons r tl ih =>
    have hr := h r (List.mem_cons_self r tl)
    have htl : ∀ x ∈ tl, x.isOk = true :=
      fun x hx => h x (List.mem_cons_of_mem r hx)
    cases r with
    | error e => exact Bool.noConfusion hr
    | ok o =>
      simp only [collectResults]
      rw [ih htl]
      cases o with
      | none => rfl
      | some v => rfl

/-- Claim C3: when no unit of work fails, `build_from_path` returns exactly
the records of the non-skipped utterances, in submission order (equal to
transcription parse order), with every skip sentinel filtered out. -/
theorem build_from_path_filters_skips (env : AudioEnv) (hp : Hparams)
    (in_dir out_dir : String) (trnLines : List PyStr)
    (h : ∀ t ∈ submittedTasks in_dir trnLines,
      (runTask env hp out_dir t).isOk = true) :
    build_from_path env hp in_dir out_dir trnLines =
      .ok (((submittedTasks in_dir trnLines).map (runTask env hp out_dir)).filterMap
        (fun r => match r with | .ok (some v) => some v | _ => none)) := by
  unfold build_from_path
  apply collectResults_all_ok
  intro r hr
  rcases List.mem_map.mp hr with ⟨t, ht, rfl⟩
  exact h t ht

set_option maxRecDepth 100000 in
/-- Concrete instance of claim C3's theorem: two utterances, the second of
which exceeds the frame limit, leaving exactly the first record. -/
theorem build_from_path_filters_skips_witness :
    build_from_path
        ⟨fun p => some (List.replicate p.length 1), fun w => w,
         fun w => ⟨3, w.length⟩, fun w => ⟨3, w.length⟩⟩ ⟨13⟩ "in" "out"
        [String.toList "a\tT1", String.toList "p1",
         String.toList "bb\tT2", String.toList "p2"] =
      .ok [⟨"biaobei48000-spec-00001.npy", "biaobei48000-mel-00001.npy",
            13, "p1"⟩] := by
  rw [build_from_path_filters_skips _ _ _ _ _ (by decide)]
  decide

/-- A collected future that raised propagates its error: the collection
loop re-raises instead of returning a list. -/
theorem collectResults_mem_error
    (rs : List (Except ProcError (Option TrainingRecord))) (e : ProcError)
    (hmem : Except.error e ∈ rs) :
    ∃ e2, collectResults rs = .error e2 := by
  induction rs with
  | nil => cases hmem
  | cons r tl ih =>
    rcases List.mem_cons.mp hmem with h | h
    · exact ⟨e, by rw [← h]; rfl⟩
    · cases r with
      | error e3 => exact ⟨e3, rfl⟩
      | ok o =>
        rcases ih h with ⟨e2, he2⟩
        refine ⟨e2, ?_⟩
        simp only [collectResults]
        rw [he2]

/-- Claim C8: a fatal error in a single unit of work is not isolated: if
the audio load of any submitted utterance fails, the whole
`build_from_path` run aborts with an error and returns no list. -/
theorem build_from_path_aborts_on_load_failure (env : AudioEnv) (hp : Hparams)
    (in_dir out_dir : String) (trnLines : List PyStr) (t : ℕ × String × String)
    (ht : t ∈ submittedTasks in_dir trnLines)
    (hload : env.load_wav t.2.1 = none) :
    ∃ e, build_from_path env hp in_dir out_dir trnLines = .error e := by
  have hrun : runTask env hp out_dir t = .error .loadFailed := by
    unfold runTask _process_utterance
    rw [hload]
    rfl
  apply collectResults_mem_error _ ProcError.loadFailed
  rw [← hrun]
  exact List.mem_map_of_mem _ ht

/-- Concrete instance of claim C8's theorem: one utterance whose audio
file cannot be loaded aborts the run. -/
theorem build_from_path_aborts_on_load_failure_witness :
    ∃ e, build_from_path
        ⟨fun _ => none, fun w => w, fun w => ⟨3, w.length⟩,
         fun w => ⟨3, w.length⟩⟩ ⟨1000⟩ "in" "out"
        [String.toList "a\tT1", String.toList "p1"] = .error e :=
  build_from_path_aborts_on_load_failure _ _ "in" "out" _
    (1, "in/Wave/a.wav", "p1") (by decide) rfl
